import Mathlib

/-!
Shallow embedding of the EasyOCR golf-scorecard server.

Two source variants exist in the repository:
* `src/easyocr_server/app.py` (namespace `V1` below): has the `/ocr` and
  `/extract_scores` endpoints; its `/ocr` emits raw (uncleaned) text.
* `src/RoundsVersion2/easyocr_server/app.py` (namespace `V2` below): has
  `clean_golf_text` and `extract_text_with_confidence` (detections cleaned
  and sorted by descending confidence); only the `/ocr` endpoint.

Python strings are modelled as `List Char`; floats as `ℚ`; JSON bodies as an
explicit `Json` inductive so that presence or absence of a key is a statable
fact; HTTP responses as a `Json × Nat` pair (body, status code).
-/

deriving instance DecidableEq for Except

namespace GolfOcr

/-- Whitespace characters recognized by Python `str.split()` / `str.strip()`
(restricted to the ASCII whitespace characters, the only ones this
development needs). -/
def pyIsSpace (c : Char) : Bool :=
  c = ' ' || c = '\t' || c = '\n' || c = '\x0b' || c = '\x0c' || c = '\r'

def notSpace (c : Char) : Bool := !pyIsSpace c

/-- The decimal value of a character, as used by Python `int()`: defined for
characters of Unicode category Nd. The model's domain covers the ASCII
digits and the Arabic-Indic digits U+0660..U+0669. -/
def decimalVal? (c : Char) : Option Nat :=
  if c.toNat ≥ 48 && c.toNat ≤ 57 then some (c.toNat - 48)
  else if c.toNat ≥ 0x660 && c.toNat ≤ 0x669 then some (c.toNat - 0x660)
  else none

def isDecimalDigit (c : Char) : Bool := (decimalVal? c).isSome

/-- Python `str.isdigit` at the character level: true for decimal digits
(category Nd) and also for Numeric_Type=Digit characters such as the
superscripts U+00B9, U+00B2, U+00B3, which have no decimal value and which
`int()` rejects. -/
def pyIsDigitChar (c : Char) : Bool :=
  isDecimalDigit c || c = '¹' || c = '²' || c = '³'

/-- Python `s.isdigit()`: nonempty and every character passes the character
level test. -/
def pyIsDigit (s : List Char) : Bool := !s.isEmpty && s.all pyIsDigitChar

def digitsVal (ds : List Nat) : Nat := ds.foldl (fun n d => 10 * n + d) 0

/-- The decimal values of a string's characters, or `none` if any character
has no decimal value. -/
def decDigits? : List Char → Option (List Nat)
  | [] => some []
  | c :: t =>
    match decimalVal? c, decDigits? t with
    | some d, some ds => some (d :: ds)
    | _, _ => none

/-- Python `int(s)` for a string of digit characters: succeeds exactly when
`s` is nonempty and every character has a decimal value, returning the base
ten value; `none` models the `ValueError` raise. -/
def pyInt? (s : List Char) : Option Nat :=
  if s.isEmpty then none else (decDigits? s).map digitsVal

/-- Rational division in a form the kernel evaluates on concrete values
(the field operations on `ℚ` are irreducible); `qdiv_eq_div` below proves
it equal to ordinary division. -/
def qdiv (a b : ℚ) : ℚ := Rat.divInt (a.num * b.den) (a.den * b.num)

/-- Rational addition in a kernel-evaluable form; `qadd_eq_add` below
proves it equal to ordinary addition. -/
def qadd (a b : ℚ) : ℚ := Rat.divInt (a.num * b.den + b.num * a.den) (a.den * b.den)

/-- Rational subtraction in a kernel-evaluable form; `qsub_eq_sub` below
proves it equal to ordinary subtraction. -/
def qsub (a b : ℚ) : ℚ := Rat.divInt (a.num * b.den - b.num * a.den) (a.den * b.den)

/-- Sum of a list of rationals in a kernel-evaluable form; `qsum_eq_sum`
below proves it equal to `List.sum`. -/
def qsum (l : List ℚ) : ℚ := l.foldr qadd 0

/-- The constant `0.5` of the confidence threshold, in a form the kernel
evaluates (`confThreshold_eq` below proves it equal to `1 / 2`). -/
def confThreshold : ℚ := mkRat 1 2

/-- Python `s.strip()`: drop whitespace from both ends. -/
def pyStrip (s : List Char) : List Char :=
  ((s.dropWhile pyIsSpace).reverse.dropWhile pyIsSpace).reverse

/-- Helper of `pyWords`: scan the characters, `acc` holding the reversed
current word. -/
def pyWordsAux : List Char → List Char → List (List Char)
  | [], acc => if acc.isEmpty then [] else [acc.reverse]
  | c :: cs, acc =>
    if pyIsSpace c then
      if acc.isEmpty then pyWordsAux cs [] else acc.reverse :: pyWordsAux cs []
    else pyWordsAux cs (c :: acc)

/-- Python `s.split()`: split on runs of whitespace, dropping empty pieces. -/
def pyWords (s : List Char) : List (List Char) := pyWordsAux s []

/-- Python `" ".join(ws)`. -/
def unwords : List (List Char) → List Char
  | [] => []
  | [w] => w
  | w :: ws => w ++ ' ' :: unwords ws

end GolfOcr

namespace V2

open GolfOcr

/-- The `corrections` table of `clean_golf_text`
(src/RoundsVersion2/easyocr_server/app.py lines 78-87), in source order. -/
def corrections : List (Char × Char) :=
  [('O', '0'), ('o', '0'), ('l', '1'), ('I', '1'),
   ('S', '5'), ('G', '6'), ('B', '8'), ('|', '1')]

def corrLookup (c : Char) : Option Char := corrections.lookup c

def isCorrKey (c : Char) : Bool := (corrLookup c).isSome

/-- Python `w.replace(k, v)` for single characters. -/
def replaceChar (k v : Char) (w : List Char) : List Char :=
  w.map fun c => if c = k then v else c

/-- The inner loop of `clean_golf_text`: replace every occurrence of every
correction key, in table order. -/
def replaceAll (w : List Char) : List Char :=
  corrections.foldl (fun w kv => replaceChar kv.1 kv.2 w) w

/-- Per-token correction of `clean_golf_text` (lines 93-104): a single
character in the table maps to its digit; a token of length at most 3
containing a mapped character has every mapped character replaced; other
tokens pass through. -/
def correctWord (w : List Char) : List Char :=
  match w, corrLookup w.headI with
  | [_], some v => [v]
  | _, _ =>
    if w.length ≤ 3 && w.any isCorrKey then replaceAll w else w

/-- `clean_golf_text` (lines 61-106): empty input returns empty; otherwise
collapse whitespace, correct each token, rejoin with single spaces. -/
def clean_golf_text (s : List Char) : List Char :=
  if s.isEmpty then []
  else
    let cleaned := unwords (pyWords s)
    unwords ((pyWords cleaned).map correctWord)

/-- `clean_golf_text` on Lean strings. -/
def cleanStr (s : String) : String := ⟨clean_golf_text s.data⟩

end V2

namespace GolfOcr

/-- Axis-aligned bounding box `{x, y, width, height}` as built by both
variants from region points 0 and 2. -/
structure BBox where
  x : ℚ
  y : ℚ
  width : ℚ
  height : ℚ
deriving DecidableEq, Repr

/-- One raw EasyOCR result tuple `(bbox, text, confidence)`: `region` is the
list of corner points, of which index 0 (top-left) and index 2
(bottom-right) are used. -/
structure RawDetection where
  region : List (ℚ × ℚ)
  text : List Char
  confidence : ℚ
deriving DecidableEq, Repr

/-- The detection record both variants build: bbox from region points 0 and
2, width and height as bottom-right minus top-left (not clamped). -/
structure Detection where
  text : List Char
  confidence : ℚ
  bbox : BBox
deriving DecidableEq, Repr

/-- Shared detection-building step (V1 app.py lines 52-67 builds it with the
raw text; V2 lines 120-138 with the cleaned text): `f` is the text
transformation applied to the raw text. -/
def buildDetection (f : List Char → List Char) (r : RawDetection) : Detection :=
  let topLeft := r.region.getD 0 (0, 0)
  let bottomRight := r.region.getD 2 (0, 0)
  { text := f r.text
    confidence := r.confidence
    bbox := { x := topLeft.1, y := topLeft.2
              width := qsub bottomRight.1 topLeft.1
              height := qsub bottomRight.2 topLeft.2 } }

/-- Minimal JSON value model, so that presence or absence of an object key
is statable. -/
inductive Json where
  | num (q : ℚ)
  | str (s : String)
  | bool (b : Bool)
  | arr (xs : List Json)
  | obj (fields : List (String × Json))

/-- Look a key up in a JSON object (Python `d.get(k)` / `k in d`). -/
def Json.get? : Json → String → Option Json
  | .obj fields, k => fields.lookup k
  | _, _ => none

/-- The request-handling environment: the parsed request body (`none` models
`request.json` being absent), the outcome of base64 decode plus image
loading, the outcome of `reader.readtext`, and the elapsed processing
time reported in the response. -/
structure OcrEnv where
  requestJson : Option (List (String × Json))
  decode : Except String Unit
  engine : Except String (List RawDetection)
  elapsed : ℚ

/-- Python `not request.json or 'image' not in request.json`. -/
def OcrEnv.missingImage (env : OcrEnv) : Bool :=
  match env.requestJson with
  | none => true
  | some req => (req.lookup "image").isNone

/-- The 400 body for a missing image field (identical in both variants). -/
def missingImageBody (t : ℚ) : Json :=
  .obj [("success", .bool false),
        ("error", .str "Missing image data in request"),
        ("processing_time", .num t)]

/-- The 500 body of the outer exception handler of `/ocr`. -/
def ocrFailBody (e : String) (t : ℚ) : Json :=
  .obj [("success", .bool false),
        ("error", .str ("OCR processing failed: " ++ e)),
        ("processing_time", .num t)]

/-- Serialization of one detection in the `/ocr` success body. -/
def detectionJson (d : Detection) : Json :=
  .obj [("text", .str ⟨d.text⟩),
        ("confidence", .num d.confidence),
        ("bbox", .obj [("x", .num d.bbox.x), ("y", .num d.bbox.y),
                       ("width", .num d.bbox.width),
                       ("height", .num d.bbox.height)])]

/-- Python truthiness of an optional JSON value, as used by
`ocr_data.get('success')`. -/
def jTruthy : Option Json → Bool
  | some (.bool b) => b
  | some (.num q) => decide (q ≠ 0)
  | some (.str s) => !s.isEmpty
  | some (.arr xs) => !xs.isEmpty
  | some (.obj fields) => !fields.isEmpty
  | none => false

end GolfOcr

namespace V2

open GolfOcr

/-- The order of the sort at line 141,
`detections.sort(key=lambda x: x['confidence'], reverse=True)`:
`a` may come before `b` when `a`'s confidence is at least `b`'s. -/
def confGe (a b : Detection) : Prop := b.confidence ≤ a.confidence

instance : DecidableRel confGe := fun a b =>
  inferInstanceAs (Decidable (b.confidence ≤ a.confidence))

instance : IsTotal Detection confGe := ⟨fun a b => le_total b.confidence a.confidence⟩

instance : IsTrans Detection confGe := ⟨fun _ _ _ h1 h2 => le_trans h2 h1⟩

/-- `extract_text_with_confidence` (src/RoundsVersion2/easyocr_server/app.py
lines 108-143): clean each raw text, build the detection record, then sort
by descending confidence. Python `list.sort(key=..., reverse=True)` is a
stable descending sort; `insertionSort` with the total preorder `confGe` is
also a stable sort for that preorder, and stable sorts for the same
preorder produce the same output. -/
def extract_text_with_confidence (results : List RawDetection) : List Detection :=
  List.insertionSort confGe (results.map (buildDetection clean_golf_text))

/-- The `/ocr` handler of src/RoundsVersion2/easyocr_server/app.py
(lines 153-234): missing image is 400; a decode failure is caught by the
inner handler as 400 `Invalid image data: ...`; an engine failure by the
outer handler as 500; success is 200 with cleaned, confidence-sorted
detections. Returns (body, HTTP status). -/
def perform_ocr (env : OcrEnv) : Json × Nat :=
  if env.missingImage then (missingImageBody env.elapsed, 400)
  else
    match env.decode with
    | .error e =>
      (.obj [("success", .bool false),
             ("error", .str ("Invalid image data: " ++ e)),
             ("processing_time", .num env.elapsed)], 400)
    | .ok _ =>
      match env.engine with
      | .error e => (ocrFailBody e env.elapsed, 500)
      | .ok results =>
        let detections := extract_text_with_confidence results
        (.obj [("success", .bool true),
               ("detections", .arr (detections.map detectionJson)),
               ("processing_time", .num env.elapsed),
               ("message",
                .str ("Successfully processed " ++ toString detections.length
                      ++ " text detections"))], 200)

end V2

namespace V1

open GolfOcr

/-- A potential-score entry of `extract_scores`
(src/easyocr_server/app.py lines 113-117). -/
structure ScoreCandidate where
  score : Nat
  confidence : ℚ
  bbox : BBox
deriving DecidableEq, Repr

/-- The per-detection decision of the filter at line 112:
`text.isdigit() and 1 <= int(text) <= 12 and confidence > 0.5` on the
stripped text. `none` models the `ValueError` raised by `int(text)` when
`isdigit` passed but the text has a character without a decimal value
(e.g. a superscript digit). -/
def keepDecision (d : Detection) : Option Bool :=
  let t := pyStrip d.text
  if pyIsDigit t then
    match pyInt? t with
    | none => none
    | some n => some (decide (1 ≤ n ∧ n ≤ 12 ∧ confThreshold < d.confidence))
  else some false

/-- The filtering loop of `extract_scores` (lines 106-117); `Except.error`
models the uncaught `ValueError` propagating out of the loop. -/
def filterScores : List Detection → Except String (List ScoreCandidate)
  | [] => .ok []
  | d :: ds =>
    match keepDecision d with
    | none => .error "invalid literal for int() with base 10"
    | some true =>
      (filterScores ds).map
        (fun cs => ⟨(pyInt? (pyStrip d.text)).getD 0, d.confidence, d.bbox⟩ :: cs)
    | some false => filterScores ds

/-- The order of the sort at line 120,
`potential_scores.sort(key=lambda x: (x['bbox']['y'], x['bbox']['x']))`:
lexicographic order on the (y, x) pair. Python's stable sort for this
total preorder is reproduced by `insertionSort` (both are stable sorts for
the same preorder). -/
def posLe (a b : ScoreCandidate) : Prop :=
  a.bbox.y < b.bbox.y ∨ (a.bbox.y = b.bbox.y ∧ a.bbox.x ≤ b.bbox.x)

instance : DecidableRel posLe := fun a b =>
  inferInstanceAs
    (Decidable (a.bbox.y < b.bbox.y ∨ (a.bbox.y = b.bbox.y ∧ a.bbox.x ≤ b.bbox.x)))

instance : IsTotal ScoreCandidate posLe := by
  constructor
  intro a b
  rcases lt_trichotomy a.bbox.y b.bbox.y with h | h | h
  · exact Or.inl (Or.inl h)
  · rcases le_total a.bbox.x b.bbox.x with hx | hx
    · exact Or.inl (Or.inr ⟨h, hx⟩)
    · exact Or.inr (Or.inr ⟨h.symm, hx⟩)
  · exact Or.inr (Or.inl h)

instance : IsTrans ScoreCandidate posLe := by
  constructor
  intro a b c h1 h2
  rcases h1 with h1 | ⟨h1, h1x⟩
  · rcases h2 with h2 | ⟨h2, _⟩
    · exact Or.inl (h1.trans h2)
    · exact Or.inl (h2 ▸ h1)
  · rcases h2 with h2 | ⟨h2, h2x⟩
    · exact Or.inl (h1 ▸ h2)
    · exact Or.inr ⟨h1.trans h2, h1x.trans h2x⟩

/-- The report assembled by `extract_scores` (lines 128-136). -/
structure ScoreReport where
  scores : List Nat
  total : Nat
  confidence : ℚ
  holes_found : Nat
  expected_holes : Nat
deriving DecidableEq, Repr

/-- The score-extraction pipeline of `extract_scores` (lines 105-136):
filter, sort by position, truncate to `expected_holes`, aggregate.
`np.mean` of a nonempty list is its sum divided by its length; the `if
scores else 0.0` branch yields 0 for an empty truncation. -/
def extract_scores_core (detections : List Detection) (expected_holes : Nat) :
    Except String ScoreReport :=
  (filterScores detections).map fun potential_scores =>
    let sorted := List.insertionSort posLe potential_scores
    let picked := sorted.take expected_holes
    let scores := picked.map (·.score)
    let avg : ℚ :=
      if scores.isEmpty then 0
      else qdiv (qsum (picked.map (·.confidence))) (picked.length : ℚ)
    { scores := scores
      total := scores.sum
      confidence := avg
      holes_found := scores.length
      expected_holes := expected_holes }

/-- The control flow of the `/ocr` handler of src/easyocr_server/app.py
(lines 32-83), factored so that `/extract_scores` can reuse it: either a
failure response (body, status) — missing image 400, or any exception in
the try block 500 — or the list of detections built from the engine
results (raw text, no cleaning, no sorting in this variant). -/
def ocrOutcome (env : OcrEnv) : (Json × Nat) ⊕ List Detection :=
  if env.missingImage then .inl (missingImageBody env.elapsed, 400)
  else
    match env.decode with
    | .error e => .inl (ocrFailBody e env.elapsed, 500)
    | .ok _ =>
      match env.engine with
      | .error e => .inl (ocrFailBody e env.elapsed, 500)
      | .ok results => .inr (results.map (buildDetection id))

/-- The `/ocr` handler of src/easyocr_server/app.py: a failure outcome is
returned as-is; a success is 200 with the detections and a message. -/
def perform_ocr (env : OcrEnv) : Json × Nat :=
  match ocrOutcome env with
  | .inl r => r
  | .inr detections =>
    (.obj [("success", .bool true),
           ("detections", .arr (detections.map detectionJson)),
           ("processing_time", .num env.elapsed),
           ("message",
            .str ("Found " ++ toString detections.length ++ " text elements"))],
     200)

/-- Serialization of the success body of `/extract_scores`
(lines 128-136). -/
def reportJson (r : ScoreReport) (t : ℚ) : Json :=
  .obj [("success", .bool true),
        ("scores", .arr (r.scores.map (fun n => .num n))),
        ("total", .num r.total),
        ("confidence", .num r.confidence),
        ("holes_found", .num r.holes_found),
        ("expected_holes", .num r.expected_holes),
        ("processing_time", .num t)]

/-- The `/extract_scores` handler (lines 85-143). `expected_holes` stands
for `request.json.get('expected_holes', 18)`. When the internal
`perform_ocr()` call fails, `ocr_data` — the failure body extracted from
the response or the (response, status) tuple — is returned directly as a
dict, which Flask serves with status 200: the original 400/500 status of
the failure is dropped. A `ValueError` from `int(text)` inside the
extraction loop is caught by the handler's own `except` as a 500. -/
def extract_scores_endpoint (env : OcrEnv) (expected_holes : Nat) : Json × Nat :=
  match ocrOutcome env with
  | .inl (ocr_data, _status) => (ocr_data, 200)
  | .inr detections =>
    match extract_scores_core detections expected_holes with
    | .error e =>
      (.obj [("success", .bool false),
             ("error", .str ("Score extraction failed: " ++ e)),
             ("processing_time", .num env.elapsed)], 500)
    | .ok r => (reportJson r env.elapsed, 200)

end V1

namespace GolfOcr

/-- A request whose JSON body has no `image` key (for the C2 and C9
instances). -/
def missingEnv : OcrEnv :=
  { requestJson := some [], decode := .ok (), engine := .ok [], elapsed := 0 }

/-- A request whose OCR engine returns one detection reading the Unicode
superscript two with confidence 0.9 (for the C10 instance): `"²".isdigit()`
is true but `int("²")` raises. -/
def supEnv : OcrEnv :=
  { requestJson := some [("image", Json.str "abc")]
    decode := .ok ()
    engine := .ok [⟨[(0, 0), (1, 0), (1, 1), (0, 1)], ['²'], mkRat 9 10⟩]
    elapsed := 0 }

/-- The three detections of the spec's end-to-end example (C1): texts "4",
"S", "par" with confidences 0.9, 0.7, 0.99. -/
def c1Detections : List Detection :=
  [⟨"4".data, mkRat 9 10, ⟨10, 10, 5, 5⟩⟩,
   ⟨"S".data, mkRat 7 10, ⟨50, 10, 5, 5⟩⟩,
   ⟨"par".data, mkRat 99 100, ⟨0, 0, 20, 10⟩⟩]

theorem qdiv_eq_div (a b : ℚ) : qdiv a b = a / b := by
  rw [qdiv, Rat.divInt_eq_div]
  by_cases hb : b = 0
  · subst hb
    simp
  · have hbn : (b.num : ℚ) ≠ 0 := by
      exact_mod_cast Rat.num_ne_zero.mpr hb
    have had : (a.den : ℚ) ≠ 0 := by
      exact_mod_cast a.den_nz
    have hbd : (b.den : ℚ) ≠ 0 := by
      exact_mod_cast b.den_nz
    have ha' : (a.num : ℚ) = a * a.den := (div_eq_iff had).mp (Rat.num_div_den a)
    have hb' : (b.num : ℚ) = b * b.den := (div_eq_iff hbd).mp (Rat.num_div_den b)
    push_cast
    rw [div_eq_div_iff (by exact mul_ne_zero had hbn) hb, ha', hb']
    ring

theorem qadd_eq_add (a b : ℚ) : qadd a b = a + b := by
  rw [qadd, Rat.divInt_eq_div]
  have had : (a.den : ℚ) ≠ 0 := by exact_mod_cast a.den_nz
  have hbd : (b.den : ℚ) ≠ 0 := by exact_mod_cast b.den_nz
  have ha' : (a.num : ℚ) = a * a.den := (div_eq_iff had).mp (Rat.num_div_den a)
  have hb' : (b.num : ℚ) = b * b.den := (div_eq_iff hbd).mp (Rat.num_div_den b)
  push_cast
  rw [div_eq_iff (by exact mul_ne_zero had hbd), ha', hb']
  ring

theorem qsub_eq_sub (a b : ℚ) : qsub a b = a - b := by
  rw [qsub, Rat.divInt_eq_div]
  have had : (a.den : ℚ) ≠ 0 := by exact_mod_cast a.den_nz
  have hbd : (b.den : ℚ) ≠ 0 := by exact_mod_cast b.den_nz
  have ha' : (a.num : ℚ) = a * a.den := (div_eq_iff had).mp (Rat.num_div_den a)
  have hb' : (b.num : ℚ) = b * b.den := (div_eq_iff hbd).mp (Rat.num_div_den b)
  push_cast
  rw [div_eq_iff (by exact mul_ne_zero had hbd), ha', hb']
  ring

theorem qsum_eq_sum (l : List ℚ) : qsum l = l.sum := by
  induction l with
  | nil => rfl
  | cons x l ih =>
    simp only [qsum, List.foldr_cons, List.sum_cons] at ih ⊢
    rw [qadd_eq_add, ih]

theorem confThreshold_eq : confThreshold = 1 / 2 := by
  norm_num [confThreshold]

theorem pyWordsAux_all_space {s : List Char} (h : ∀ c ∈ s, pyIsSpace c = true) :
    pyWordsAux s [] = [] := by
  induction s with
  | nil => rfl
  | cons c cs ih =>
    have hc : pyIsSpace c = true := h c (List.mem_cons_self c cs)
    simp only [pyWordsAux, hc, if_true, List.isEmpty_nil]
    exact ih fun x hx => h x (List.mem_cons_of_mem c hx)

theorem pyWords_all_space {s : List Char} (h : ∀ c ∈ s, pyIsSpace c = true) :
    pyWords s = [] :=
  pyWordsAux_all_space h

theorem pyWordsAux_good {s : List Char} :
    ∀ {acc : List Char}, (∀ c ∈ acc, pyIsSpace c = false) →
    ∀ w ∈ pyWordsAux s acc, w ≠ [] ∧ ∀ c ∈ w, pyIsSpace c = false := by
  induction s with
  | nil =>
    intro acc hacc w hw
    by_cases ha : acc = []
    · simp [pyWordsAux, ha] at hw
    · simp only [pyWordsAux] at hw
      rw [if_neg (by simpa [List.isEmpty_iff] using ha)] at hw
      simp only [List.mem_singleton] at hw
      subst hw
      refine ⟨by simpa using ha, ?_⟩
      intro c hc
      exact hacc c (List.mem_reverse.mp hc)
  | cons c cs ih =>
    intro acc hacc w hw
    simp only [pyWordsAux] at hw
    by_cases hc : pyIsSpace c = true
    · rw [if_pos hc] at hw
      by_cases ha : acc = []
      · rw [if_pos (by simpa [List.isEmpty_iff] using ha)] at hw
        exact ih (by simp) w hw
      · rw [if_neg (by simpa [List.isEmpty_iff] using ha)] at hw
        rcases List.mem_cons.mp hw with rfl | hw
        · refine ⟨by simpa using ha, ?_⟩
          intro x hx
          exact hacc x (List.mem_reverse.mp hx)
        · exact ih (by simp) w hw
    · rw [if_neg hc] at hw
      refine ih ?_ w hw
      intro x hx
      rcases List.mem_cons.mp hx with rfl | hx
      · simpa using hc
      · exact hacc x hx

theorem pyWords_good {s : List Char} :
    ∀ w ∈ pyWords s, w ≠ [] ∧ ∀ c ∈ w, pyIsSpace c = false :=
  pyWordsAux_good (by simp)

theorem pyWordsAux_append_word {w : List Char} (hw : ∀ c ∈ w, pyIsSpace c = false) :
    ∀ {r acc : List Char}, pyWordsAux (w ++ r) acc = pyWordsAux r (w.reverse ++ acc) := by
  induction w with
  | nil => intro r acc; rfl
  | cons c w' ih =>
    intro r acc
    have hc : pyIsSpace c = false := hw c (List.mem_cons_self c w')
    show pyWordsAux (c :: (w' ++ r)) acc = _
    simp only [pyWordsAux]
    rw [if_neg (by simp [hc])]
    rw [ih fun x hx => hw x (List.mem_cons_of_mem c hx)]
    simp

theorem pyWords_unwords {ws : List (List Char)}
    (h : ∀ w ∈ ws, w ≠ [] ∧ ∀ c ∈ w, pyIsSpace c = false) :
    pyWords (unwords ws) = ws := by
  induction ws with
  | nil => rfl
  | cons w ws ih =>
    obtain ⟨hw, hwc⟩ := h w (List.mem_cons_self w ws)
    cases ws with
    | nil =>
      show pyWordsAux (unwords [w]) [] = [w]
      have h1 : unwords [w] = w ++ [] := by simp [unwords]
      rw [h1, pyWordsAux_append_word hwc]
      simp only [pyWordsAux]
      rw [if_neg (by simp [List.isEmpty_iff, hw])]
      simp
    | cons w' ws' =>
      show pyWordsAux (unwords (w :: w' :: ws')) [] = w :: w' :: ws'
      have h1 : unwords (w :: w' :: ws') = w ++ (' ' :: unwords (w' :: ws')) := rfl
      rw [h1, pyWordsAux_append_word hwc]
      simp only [pyWordsAux]
      rw [if_pos (by decide), if_neg (by simp [List.isEmpty_iff, hw])]
      have hih : pyWordsAux (unwords (w' :: ws')) [] = w' :: ws' :=
        ih fun x hx => h x (List.mem_cons_of_mem w hx)
      rw [hih]
      simp

end GolfOcr

namespace V2

open GolfOcr

theorem clean_golf_text_all_space {s : List Char}
    (h : ∀ c ∈ s, pyIsSpace c = true) : clean_golf_text s = [] := by
  rw [clean_golf_text]
  by_cases hs : s.isEmpty
  · simp [hs]
  · simp only [hs, if_false]
    rw [pyWords_all_space h]
    rfl

end V2

/-- C8: the text-cleaning function satisfies the spec's concrete examples —
`clean("O") = "0"`, `clean("lI") = "11"`, `clean("CARD") = "CARD"` (length
over 3, untouched), `clean("  4   5 ") = "4 5"` — and empty or
whitespace-only input yields empty output. -/
theorem C8_clean_examples :
    V2.cleanStr "O" = "0" ∧ V2.cleanStr "lI" = "11" ∧
    V2.cleanStr "CARD" = "CARD" ∧ V2.cleanStr "  4   5 " = "4 5" ∧
    ∀ s : String, (∀ c ∈ s.data, GolfOcr.pyIsSpace c = true) → V2.cleanStr s = "" := by
  refine ⟨by decide, by decide, by decide, by decide, ?_⟩
  intro s hs
  show String.mk (V2.clean_golf_text s.data) = String.mk []
  rw [V2.clean_golf_text_all_space hs]

/-- Witness for C8: the whitespace-only clause applied to the concrete
two-space string. -/
theorem C8_clean_examples_witness : V2.cleanStr "  " = "" :=
  C8_clean_examples.2.2.2.2 "  " (by decide)

namespace V2

open GolfOcr

theorem correctWord_single_some {c v : Char} (h : corrLookup c = some v) :
    correctWord [c] = [v] := by
  unfold correctWord
  simp [h]

theorem correctWord_single_none {c : Char} (h : corrLookup c = none) :
    correctWord [c] = [c] := by
  unfold correctWord
  simp [h, isCorrKey]

theorem correctWord_nil : correctWord [] = [] := by decide

theorem correctWord_big {a b : Char} {t : List Char} :
    correctWord (a :: b :: t) =
      if ((a :: b :: t).length ≤ 3 && (a :: b :: t).any isCorrKey : Bool)
      then replaceAll (a :: b :: t) else (a :: b :: t) := by
  unfold correctWord
  cases h : corrLookup (a :: b :: t).headI <;> rfl

theorem foldl_replace_length (kvs : List (Char × Char)) (w : List Char) :
    (kvs.foldl (fun w kv => replaceChar kv.1 kv.2 w) w).length = w.length := by
  induction kvs generalizing w with
  | nil => rfl
  | cons kv kvs ih =>
    simp only [List.foldl_cons]
    rw [ih]
    simp [replaceChar]

theorem foldl_replace_mem {kvs : List (Char × Char)} {w : List Char} {c : Char}
    (hc : c ∈ kvs.foldl (fun w kv => replaceChar kv.1 kv.2 w) w) :
    (c ∈ w ∧ ∀ kv ∈ kvs, c ≠ kv.1) ∨ (∃ kv ∈ kvs, c = kv.2) := by
  induction kvs generalizing w with
  | nil => exact Or.inl ⟨by simpa using hc, by simp⟩
  | cons kv kvs ih =>
    simp only [List.foldl_cons] at hc
    rcases ih hc with ⟨hmem, hkeys⟩ | ⟨kv2, hkv2, hval⟩
    · simp only [replaceChar, List.mem_map] at hmem
      obtain ⟨o, ho, hoc⟩ := hmem
      by_cases hok : o = kv.1
      · rw [if_pos hok] at hoc
        exact Or.inr ⟨kv, List.mem_cons_self kv kvs, hoc.symm⟩
      · rw [if_neg hok] at hoc
        subst hoc
        refine Or.inl ⟨ho, ?_⟩
        intro kv2 hkv2
        rcases List.mem_cons.mp hkv2 with rfl | hkv2
        · exact hok
        · exact hkeys kv2 hkv2
    · exact Or.inr ⟨kv2, List.mem_cons_of_mem kv hkv2, hval⟩

theorem corrLookup_none {c : Char} (h : ∀ kv ∈ corrections, c ≠ kv.1) :
    corrLookup c = none := by
  rw [corrLookup, List.lookup_eq_none_iff]
  intro p hp
  simpa using h p hp

theorem corrLookup_mem {c v : Char} (h : corrLookup c = some v) : (c, v) ∈ corrections := by
  rw [corrLookup, List.lookup_eq_some_iff] at h
  obtain ⟨l1, l2, hl, -⟩ := h
  rw [hl]
  exact List.mem_append_right _ (List.mem_cons_self _ _)

theorem corr_values_ok :
    ∀ v ∈ corrections.map Prod.snd, isCorrKey v = false ∧ pyIsSpace v = false := by
  decide

theorem corr_snd_props {c v : Char} (h : (c, v) ∈ corrections) :
    isCorrKey v = false ∧ pyIsSpace v = false :=
  corr_values_ok v (List.mem_map_of_mem Prod.snd h)

theorem replaceAll_no_key {w : List Char} : ∀ c ∈ replaceAll w, isCorrKey c = false := by
  intro c hc
  rcases foldl_replace_mem hc with ⟨-, hkeys⟩ | ⟨kv, hkv, rfl⟩
  · simp [isCorrKey, corrLookup_none hkeys]
  · exact (corr_snd_props (show (kv.1, kv.2) ∈ corrections by simpa using hkv)).1

theorem replaceAll_not_space {w : List Char} (hw : ∀ c ∈ w, pyIsSpace c = false) :
    ∀ c ∈ replaceAll w, pyIsSpace c = false := by
  intro c hc
  rcases foldl_replace_mem hc with ⟨hmem, -⟩ | ⟨kv, hkv, rfl⟩
  · exact hw c hmem
  · exact (corr_snd_props (show (kv.1, kv.2) ∈ corrections by simpa using hkv)).2

theorem replaceAll_length (w : List Char) : (replaceAll w).length = w.length :=
  foldl_replace_length corrections w

theorem corrLookup_eq_none_of_no_key {v : Char} (hv : isCorrKey v = false) :
    corrLookup v = none := by
  cases hcv : corrLookup v with
  | none => rfl
  | some x =>
    rw [isCorrKey, hcv] at hv
    simp at hv

theorem correctWord_good {w : List Char} (hw : w ≠ []) (hs : ∀ c ∈ w, pyIsSpace c = false) :
    correctWord w ≠ [] ∧ ∀ c ∈ correctWord w, pyIsSpace c = false := by
  rcases w with _ | ⟨c, _ | ⟨c2, t⟩⟩
  · cases hw rfl
  · cases h : corrLookup c with
    | some v =>
      rw [correctWord_single_some h]
      have hv := (corr_snd_props (corrLookup_mem h)).2
      refine ⟨by simp, ?_⟩
      intro x hx
      rw [List.mem_singleton] at hx
      subst hx
      exact hv
    | none =>
      rw [correctWord_single_none h]
      exact ⟨hw, hs⟩
  · rw [correctWord_big]
    split
    · refine ⟨?_, replaceAll_not_space hs⟩
      intro hnil
      have hlen := replaceAll_length (c :: c2 :: t)
      rw [hnil] at hlen
      simp at hlen
    · exact ⟨hw, hs⟩

theorem correctWord_idem (w : List Char) : correctWord (correctWord w) = correctWord w := by
  rcases w with _ | ⟨c, _ | ⟨c2, t⟩⟩
  · rw [correctWord_nil, correctWord_nil]
  · cases h : corrLookup c with
    | some v =>
      rw [correctWord_single_some h]
      exact correctWord_single_none
        (corrLookup_eq_none_of_no_key (corr_snd_props (corrLookup_mem h)).1)
    | none =>
      rw [correctWord_single_none h, correctWord_single_none h]
  · rw [correctWord_big]
    by_cases hcond : ((c :: c2 :: t).length ≤ 3 && (c :: c2 :: t).any isCorrKey : Bool) = true
    · rw [if_pos hcond]
      have hlen := replaceAll_length (c :: c2 :: t)
      have hnokey := replaceAll_no_key (w := c :: c2 :: t)
      rcases hr : replaceAll (c :: c2 :: t) with _ | ⟨a, _ | ⟨b, t2⟩⟩
      · rw [hr] at hlen
        simp at hlen
      · rw [hr] at hlen
        simp at hlen
      · rw [hr] at hnokey
        rw [correctWord_big]
        have hany : (a :: b :: t2).any isCorrKey = false := by
          apply List.any_eq_false.mpr
          intro x hx
          rw [hnokey x hx]
          exact Bool.false_ne_true
        rw [hany, Bool.and_false]
        simp
    · rw [if_neg hcond, correctWord_big, if_neg hcond]

theorem clean_golf_text_eq {s : List Char} (hs : s.isEmpty = false) :
    clean_golf_text s = unwords ((pyWords s).map correctWord) := by
  simp only [clean_golf_text, hs, Bool.false_eq_true, if_false]
  rw [pyWords_unwords pyWords_good]

theorem map_correctWord_good {ws : List (List Char)}
    (h : ∀ w ∈ ws, w ≠ [] ∧ ∀ c ∈ w, pyIsSpace c = false) :
    ∀ w ∈ ws.map correctWord, w ≠ [] ∧ ∀ c ∈ w, pyIsSpace c = false := by
  intro w hw
  rw [List.mem_map] at hw
  obtain ⟨w0, hw0, rfl⟩ := hw
  exact correctWord_good (h w0 hw0).1 (h w0 hw0).2

theorem clean_golf_text_idem (s : List Char) :
    clean_golf_text (clean_golf_text s) = clean_golf_text s := by
  by_cases hs : s.isEmpty = true
  · have hnil : s = [] := List.isEmpty_iff.mp hs
    subst hnil
    rfl
  · have hs' : s.isEmpty = false := Bool.not_eq_true _ |>.mp hs
    rw [clean_golf_text_eq hs']
    have hgood : ∀ w ∈ (pyWords s).map correctWord, w ≠ [] ∧ ∀ c ∈ w, pyIsSpace c = false :=
      map_correctWord_good pyWords_good
    by_cases h2 : (unwords ((pyWords s).map correctWord)).isEmpty = true
    · have h2' : unwords ((pyWords s).map correctWord) = [] := List.isEmpty_iff.mp h2
      rw [h2']
      rfl
    · have h2' : (unwords ((pyWords s).map correctWord)).isEmpty = false :=
        Bool.not_eq_true _ |>.mp h2
      rw [clean_golf_text_eq h2']
      rw [pyWords_unwords hgood]
      rw [List.map_map]
      congr 1
      apply List.map_congr_left
      intro w _
      exact correctWord_idem w

end V2

/-- C6: the text-cleaning function `clean_golf_text` is idempotent — for
every string `s`, `clean(clean(s)) = clean(s)`. -/
theorem C6_clean_idempotent (s : String) :
    V2.cleanStr (V2.cleanStr s) = V2.cleanStr s :=
  congrArg String.mk (V2.clean_golf_text_idem s.data)

/-- C1 (counterexample): on the spec's end-to-end input — detections "4"
(confidence 0.9), "S" (0.7), "par" (0.99) with the given boxes and
`expected_holes = 2` — score extraction does not return `scores=[4,5]`,
`total=9`, `confidence=0.8` (`mkRat 4 5`), `holes_found=2`: the
`/extract_scores` variant performs no text cleaning, so "S" fails the
digit filter. -/
theorem C1_counterexample :
    V1.extract_scores_core GolfOcr.c1Detections 2 ≠
      Except.ok { scores := [4, 5], total := 9, confidence := mkRat 4 5,
                  holes_found := 2, expected_holes := 2 } := by
  decide

/-- C1 (amended): on that input the code returns `scores=[4]`, `total=4`,
`confidence=0.9` (`mkRat 9 10`), `holes_found=1` — the "S" detection is not
cleaned (this variant's `/ocr` emits raw text) and is excluded by the
digit filter. -/
theorem C1_amended :
    V1.extract_scores_core GolfOcr.c1Detections 2 =
      Except.ok { scores := [4], total := 4, confidence := mkRat 9 10,
                  holes_found := 1, expected_holes := 2 } := by
  decide

/-- C2 (counterexample): for a request lacking the "image" field, the
internal `/ocr` step fails with HTTP status 400 and `success:false`, but
`/extract_scores` does not return the same response: the status differs
(200 instead of 400). -/
theorem C2_counterexample :
    (V1.perform_ocr GolfOcr.missingEnv).2 = 400 ∧
    GolfOcr.jTruthy ((V1.perform_ocr GolfOcr.missingEnv).1.get? "success") = false ∧
    V1.extract_scores_endpoint GolfOcr.missingEnv 18 ≠ V1.perform_ocr GolfOcr.missingEnv := by
  refine ⟨rfl, rfl, ?_⟩
  intro hc
  have h200 : (V1.extract_scores_endpoint GolfOcr.missingEnv 18).2 = 200 := rfl
  rw [hc] at h200
  have h400 : (V1.perform_ocr GolfOcr.missingEnv).2 = 400 := rfl
  rw [h400] at h200
  exact absurd h200 (by decide)

/-- C2 (amended): whenever the internal `/ocr` step fails (its `success`
field is falsy), `/extract_scores` returns the same failure body, but
always with HTTP status 200 — the 400 or 500 status of the `/ocr` failure
is dropped, because only the JSON dict is returned to Flask. -/
theorem C2_amended (env : GolfOcr.OcrEnv) (h : Nat)
    (hfail : GolfOcr.jTruthy ((V1.perform_ocr env).1.get? "success") = false) :
    V1.extract_scores_endpoint env h = ((V1.perform_ocr env).1, 200) := by
  cases ho : V1.ocrOutcome env with
  | inl r =>
    obtain ⟨b, st⟩ := r
    simp [V1.extract_scores_endpoint, V1.perform_ocr, ho]
  | inr dets =>
    exfalso
    have hsucc : (V1.perform_ocr env).1.get? "success" = some (GolfOcr.Json.bool true) := by
      simp [V1.perform_ocr, ho, GolfOcr.Json.get?]
    rw [hsucc] at hfail
    simp [GolfOcr.jTruthy] at hfail

/-- Witness for C2 (amended): instantiated at the concrete missing-image
request with `expected_holes = 18`. -/
theorem C2_amended_witness :
    V1.extract_scores_endpoint GolfOcr.missingEnv 18 =
      ((V1.perform_ocr GolfOcr.missingEnv).1, 200) :=
  C2_amended GolfOcr.missingEnv 18 rfl

/-- C9: a POST `/ocr` request lacking the "image" field yields, in both
variants, status 400 with `success:false`, error
"Missing image data in request", a `processing_time` field, and no
"detections" key. -/
theorem C9_missing_image (env : GolfOcr.OcrEnv)
    (hmiss : env.missingImage = true) :
    V1.perform_ocr env = (GolfOcr.missingImageBody env.elapsed, 400) ∧
    V2.perform_ocr env = (GolfOcr.missingImageBody env.elapsed, 400) ∧
    (GolfOcr.missingImageBody env.elapsed).get? "success" =
      some (GolfOcr.Json.bool false) ∧
    (GolfOcr.missingImageBody env.elapsed).get? "error" =
      some (GolfOcr.Json.str "Missing image data in request") ∧
    (GolfOcr.missingImageBody env.elapsed).get? "processing_time" =
      some (GolfOcr.Json.num env.elapsed) ∧
    (GolfOcr.missingImageBody env.elapsed).get? "detections" = none := by
  refine ⟨?_, ?_, rfl, rfl, rfl, rfl⟩
  · simp [V1.perform_ocr, V1.ocrOutcome, hmiss]
  · simp [V2.perform_ocr, hmiss]

/-- Witness for C9: the concrete request whose body is an empty JSON
object. -/
theorem C9_missing_image_witness :
    V1.perform_ocr GolfOcr.missingEnv = (GolfOcr.missingImageBody 0, 400) :=
  (C9_missing_image GolfOcr.missingEnv rfl).1

/-- C10: the digit filter is not total over strings passing the digit
test — the superscript two passes `isdigit`, its confidence 0.9 exceeds
the 0.5 threshold, `int()` raises on it, and `/extract_scores` answers 500
with `success:false` instead of silently filtering the detection out. -/
theorem C10_superscript_500 :
    GolfOcr.pyIsDigit ['²'] = true ∧
    GolfOcr.pyInt? ['²'] = none ∧
    GolfOcr.confThreshold < mkRat 9 10 ∧
    (V1.extract_scores_endpoint GolfOcr.supEnv 18).2 = 500 ∧
    GolfOcr.jTruthy
      ((V1.extract_scores_endpoint GolfOcr.supEnv 18).1.get? "success") = false ∧
    (V1.extract_scores_endpoint GolfOcr.supEnv 18).1.get? "error" =
      some (GolfOcr.Json.str
        "Score extraction failed: invalid literal for int() with base 10") := by
  refine ⟨?_, ?_, ?_, rfl, rfl, rfl⟩
  · decide
  · decide
  · decide

/-- C3: the detection-ranking step `extract_text_with_confidence` keeps
every detection — output length equals input length and the output is a
permutation of the cleaned detections (even zero-confidence or empty-text
ones) — the output is sorted non-increasingly by confidence, and the sort
is stable: every confidence-non-increasing sublist of the input order
survives as a sublist of the output, so ties retain relative input
order. -/
theorem C3_rank_properties (results : List GolfOcr.RawDetection) :
    (V2.extract_text_with_confidence results).length = results.length ∧
    (V2.extract_text_with_confidence results).Pairwise V2.confGe ∧
    List.Perm (V2.extract_text_with_confidence results)
      (results.map (GolfOcr.buildDetection V2.clean_golf_text)) ∧
    ∀ c : List GolfOcr.Detection, c.Pairwise V2.confGe →
      List.Sublist c (results.map (GolfOcr.buildDetection V2.clean_golf_text)) →
      List.Sublist c (V2.extract_text_with_confidence results) := by
  refine ⟨?_, ?_, ?_, ?_⟩
  · rw [V2.extract_text_with_confidence, List.length_insertionSort, List.length_map]
  · exact List.sorted_insertionSort V2.confGe _
  · exact List.perm_insertionSort V2.confGe _
  · intro c hp hs
    exact List.sublist_insertionSort hp hs

/-- Witness for C3: the stability clause at a concrete two-detection input
with equal confidences — the tied pair keeps its input order in the
ranked output. -/
theorem C3_rank_properties_witness :
    List.Sublist
      [⟨"5".data, mkRat 1 2, ⟨0, 0, 1, 1⟩⟩, ⟨"7".data, mkRat 1 2, ⟨5, 5, 1, 1⟩⟩]
      (V2.extract_text_with_confidence
        [⟨[(0, 0), (1, 0), (1, 1), (0, 1)], "S".data, mkRat 1 2⟩,
         ⟨[(5, 5), (6, 5), (6, 6), (5, 6)], "7".data, mkRat 1 2⟩]) :=
  (C3_rank_properties _).2.2.2 _ (by decide) (by decide)

namespace GolfOcr

theorem decDigits?_isSome (t : List Char) :
    (decDigits? t).isSome = t.all isDecimalDigit := by
  induction t with
  | nil => rfl
  | cons c t ih =>
    rw [decDigits?]
    cases hc : decimalVal? c with
    | none => simp [isDecimalDigit, hc]
    | some d =>
      cases ht : decDigits? t with
      | none => simp [hc, ht, isDecimalDigit, ← ih]
      | some ds => simp [hc, ht, isDecimalDigit, ← ih]

theorem pyInt?_some {t : List Char} {n : Nat} (h : pyInt? t = some n) :
    t ≠ [] ∧ t.all isDecimalDigit = true := by
  rw [pyInt?] at h
  by_cases he : t.isEmpty
  · rw [if_pos he] at h
    cases h
  · rw [if_neg he] at h
    refine ⟨by simpa [List.isEmpty_iff] using he, ?_⟩
    rw [← decDigits?_isSome]
    cases ht : decDigits? t with
    | none => rw [ht] at h; cases h
    | some ds => simp [ht]

theorem pyIsDigit_of_decimal {t : List Char} (hne : t ≠ [])
    (hall : t.all isDecimalDigit = true) : pyIsDigit t = true := by
  rw [pyIsDigit]
  rw [List.all_eq_true] at hall
  simp only [Bool.and_eq_true, List.all_eq_true]
  refine ⟨by simpa [List.isEmpty_iff] using hne, ?_⟩
  intro c hc
  rw [pyIsDigitChar]
  simp [hall c hc]

end GolfOcr

/-- C4: the score filter keeps a detection iff its text, after trimming
surrounding whitespace, consists entirely of decimal digits, parses to an
integer in [1, 12], and its confidence is strictly greater than 0.5; in
particular "13" and "0" are excluded, and confidence exactly 0.5 is
excluded. -/
theorem C4_filter_iff :
    (∀ d : GolfOcr.Detection,
      (V1.keepDecision d = some true ↔
        ∃ n : Nat,
          GolfOcr.pyStrip d.text ≠ [] ∧
          (GolfOcr.pyStrip d.text).all GolfOcr.isDecimalDigit = true ∧
          GolfOcr.pyInt? (GolfOcr.pyStrip d.text) = some n ∧
          1 ≤ n ∧ n ≤ 12 ∧ 1 / 2 < d.confidence)) ∧
    V1.keepDecision ⟨"13".data, mkRat 9 10, ⟨0, 0, 1, 1⟩⟩ = some false ∧
    V1.keepDecision ⟨"0".data, mkRat 9 10, ⟨0, 0, 1, 1⟩⟩ = some false ∧
    V1.keepDecision ⟨"4".data, mkRat 1 2, ⟨0, 0, 1, 1⟩⟩ = some false := by
  refine ⟨?_, by decide, by decide, by decide⟩
  intro d
  constructor
  · intro h
    simp only [V1.keepDecision] at h
    by_cases hd : GolfOcr.pyIsDigit (GolfOcr.pyStrip d.text) = true
    · rw [if_pos hd] at h
      cases hint : GolfOcr.pyInt? (GolfOcr.pyStrip d.text) with
      | none => rw [hint] at h; cases h
      | some n =>
        rw [hint] at h
        have hp : 1 ≤ n ∧ n ≤ 12 ∧ GolfOcr.confThreshold < d.confidence :=
          of_decide_eq_true (Option.some.inj h)
        obtain ⟨hne, hall⟩ := GolfOcr.pyInt?_some hint
        exact ⟨n, hne, hall, rfl, hp.1, hp.2.1, by
          rw [← GolfOcr.confThreshold_eq]; exact hp.2.2⟩
    · rw [if_neg hd] at h
      cases h
  · rintro ⟨n, hne, hall, hint, h1, h12, hconf⟩
    simp only [V1.keepDecision]
    rw [if_pos (GolfOcr.pyIsDigit_of_decimal hne hall), hint]
    have hth : GolfOcr.confThreshold < d.confidence := by
      rw [GolfOcr.confThreshold_eq]
      exact hconf
    simp [h1, h12, hth]

/-- Witness for C4: the boundary score 12 with confidence 0.51 is kept. -/
theorem C4_filter_iff_witness :
    V1.keepDecision ⟨"12".data, mkRat 51 100, ⟨0, 0, 1, 1⟩⟩ = some true :=
  (C4_filter_iff.1 _).mpr ⟨12, by decide, by decide, by decide, by decide, by decide,
    by norm_num⟩

/-- C5: for every detection sequence and expected_holes `h`, a successful
extraction satisfies: `scores` has length at most `h` and at most the
number of valid candidates, `total` is the sum of `scores`, `holes_found`
is the length of `scores`, and `confidence` is the arithmetic mean of the
contributing (truncated) candidates' confidences, or 0 when `scores` is
empty. -/
theorem C5_report_invariants (dets : List GolfOcr.Detection) (h : Nat)
    (cs : List V1.ScoreCandidate) (r : V1.ScoreReport)
    (hf : V1.filterScores dets = .ok cs)
    (hr : V1.extract_scores_core dets h = .ok r) :
    r.scores.length ≤ h ∧
    r.scores.length ≤ cs.length ∧
    r.total = r.scores.sum ∧
    r.holes_found = r.scores.length ∧
    (r.scores = [] → r.confidence = 0) ∧
    (r.scores ≠ [] →
      r.confidence =
        (((List.insertionSort V1.posLe cs).take h).map (·.confidence)).sum /
          (((List.insertionSort V1.posLe cs).take h).length : ℚ)) := by
  rw [V1.extract_scores_core, hf] at hr
  simp only [Except.map] at hr
  injection hr with hr
  subst hr
  refine ⟨?_, ?_, rfl, rfl, ?_, ?_⟩
  · simp
  · simp [List.length_take]
  · intro hempty
    have hm : (((List.insertionSort V1.posLe cs).take h).map (·.score)) = [] := hempty
    show (if (((List.insertionSort V1.posLe cs).take h).map (·.score)).isEmpty
          then (0 : ℚ)
          else GolfOcr.qdiv
            (GolfOcr.qsum (((List.insertionSort V1.posLe cs).take h).map (·.confidence)))
            (((List.insertionSort V1.posLe cs).take h).length : ℚ)) = 0
    rw [if_pos (by rw [hm]; rfl)]
  · intro hne
    show (if (((List.insertionSort V1.posLe cs).take h).map (·.score)).isEmpty
          then (0 : ℚ)
          else GolfOcr.qdiv
            (GolfOcr.qsum (((List.insertionSort V1.posLe cs).take h).map (·.confidence)))
            (((List.insertionSort V1.posLe cs).take h).length : ℚ)) = _
    rw [if_neg (by simpa [List.isEmpty_iff] using hne)]
    rw [GolfOcr.qdiv_eq_div, GolfOcr.qsum_eq_sum]

/-- Witness for C5: instantiated at the end-to-end example input with
`expected_holes = 2`. -/
theorem C5_report_invariants_witness :
    (({ scores := [4], total := 4, confidence := mkRat 9 10,
        holes_found := 1, expected_holes := 2 } : V1.ScoreReport)).scores.length ≤ 2 :=
  (C5_report_invariants GolfOcr.c1Detections 2
    [⟨4, mkRat 9 10, ⟨10, 10, 5, 5⟩⟩]
    { scores := [4], total := 4, confidence := mkRat 9 10,
      holes_found := 1, expected_holes := 2 }
    (by decide) (by decide)).1

/-- C7: before truncation the candidates are sorted by ascending bbox.y
then ascending bbox.x (reading order), the sort is a stable permutation
(ties keep input order: every reading-order-sorted sublist of the input
survives), and the reported scores are the first `expected_holes` entries
of that ordering, in order. -/
theorem C7_reading_order (dets : List GolfOcr.Detection) (h : Nat)
    (cs : List V1.ScoreCandidate) (r : V1.ScoreReport)
    (hf : V1.filterScores dets = .ok cs)
    (hr : V1.extract_scores_core dets h = .ok r) :
    (List.insertionSort V1.posLe cs).Pairwise V1.posLe ∧
    List.Perm (List.insertionSort V1.posLe cs) cs ∧
    (∀ c : List V1.ScoreCandidate, c.Pairwise V1.posLe →
      List.Sublist c cs → List.Sublist c (List.insertionSort V1.posLe cs)) ∧
    r.scores = ((List.insertionSort V1.posLe cs).take h).map (·.score) := by
  refine ⟨List.sorted_insertionSort V1.posLe cs, List.perm_insertionSort V1.posLe cs,
    fun c hp hs => List.sublist_insertionSort hp hs, ?_⟩
  rw [V1.extract_scores_core, hf] at hr
  simp only [Except.map] at hr
  injection hr with hr
  subst hr
  rfl

/-- Witness for C7: two candidates in reverse reading order are reordered
by ascending (y, x) and reported in that order. -/
theorem C7_reading_order_witness :
    (({ scores := [4, 3], total := 7, confidence := mkRat 9 10,
        holes_found := 2, expected_holes := 2 } : V1.ScoreReport)).scores =
      ((List.insertionSort V1.posLe
        [⟨3, mkRat 9 10, ⟨50, 10, 5, 5⟩⟩, ⟨4, mkRat 9 10, ⟨10, 10, 5, 5⟩⟩]).take 2).map
        (·.score) :=
  (C7_reading_order
    [⟨"3".data, mkRat 9 10, ⟨50, 10, 5, 5⟩⟩, ⟨"4".data, mkRat 9 10, ⟨10, 10, 5, 5⟩⟩] 2
    [⟨3, mkRat 9 10, ⟨50, 10, 5, 5⟩⟩, ⟨4, mkRat 9 10, ⟨10, 10, 5, 5⟩⟩]
    { scores := [4, 3], total := 7, confidence := mkRat 9 10,
      holes_found := 2, expected_holes := 2 }
    (by decide) (by decide)).2.2.2
